import Mathlib

/-!
Verification of the `candies_realtime` feature-extraction pipeline.

This file shallowly embeds the parts of the repository relevant to the
checked properties:

* `src/candies/interfaces.py` — header normalization (`Getrawdata.__post_init__`)
  and the raw-window computation (`Getrawdata.chop`);
* `src/candies/features.py` — the planning arithmetic of `featurize`
  (DM range, DM step, downsampling factors, output allocation, central crop)
  and the index arithmetic of the two kernels `dedisperse` and `fastdmt`;
* `src/candies/cli.py` — the alternative planning arithmetic of the `make`
  command and the layout of the persisted HDF5 record.

Python floats are modelled as exact rationals (ℚ), Python ints as ℤ or ℕ.
Python `int(x)` truncates toward zero (`pytrunc`), while Python `//` is
floor division (`Int.fdiv` on ℤ, ordinary `/` on ℕ).

The module `candies/utilities.py` is imported by the sources but is not part
of the repository snapshot; the three helpers taken from it (`kdm`,
`dm2delay`, `delay2dm`) are modelled from the specification and are marked
as such in their doc comments.
-/

namespace Candies

/-- Truncation of a rational toward zero, the semantics of Python `int(x)`
applied to a float: floor for nonnegative arguments, ceiling for negative
ones. -/
def pytrunc (q : ℚ) : ℤ := if 0 ≤ q then ⌊q⌋ else ⌈q⌉

/-- Modelled from the spec: the cold-plasma dispersion constant, 4148.808
s MHz² cm³ pc⁻¹ (spec §4.3), exported as `kdm` by the missing module
`candies/utilities.py`. -/
def kdm : ℚ := 4148808 / 1000

/-- Modelled from the spec: `dm2delay(fl, fh, dm)`, the dispersion delay
across the band from `fl` to `fh` at dispersion measure `dm`
(`candies/utilities.py` is absent from the snapshot): the maximum delay is
`kdm · dm · (fl⁻² − fh⁻²)` (spec §4.1, §4.3 and glossary). -/
def dm2delay (fl fh dm : ℚ) : ℚ := kdm * dm * (1 / fl ^ 2 - 1 / fh ^ 2)

/-- Modelled from the spec: `delay2dm(fl, fh, delay)`, the inverse of
`dm2delay` in its last argument: the dispersion measure whose delay across
the band from `fl` to `fh` equals `delay` (spec §4.2, §8 round-trip
property; `candies/utilities.py` is absent from the snapshot). -/
def delay2dm (fl fh delay : ℚ) : ℚ := delay / (kdm * (1 / fl ^ 2 - 1 / fh ^ 2))

/-! ### Header normalization, `interfaces.py`, `Getrawdata.__post_init__` -/

/-- Header dictionary fields read by `Getrawdata.__post_init__`
(`interfaces.py` lines 20–33); only the fields the checked claims use are
kept, all assumed present (the `KeyError` branch raises otherwise). -/
structure RawHeader where
  Channels : ℕ
  BandwidthMHz : ℚ
  FrequencyCh0 : ℚ
  SamplingTimeuSec : ℚ

/-- State of a `Getrawdata` object after `__post_init__`; `nt` is the
valid-sample count of the shared-memory block. -/
structure Getrawdata where
  nf : ℕ
  bw : ℚ
  df : ℚ
  fh : ℚ
  fl : ℚ
  dt : ℚ
  nt : ℤ

/-- Embedding of `Getrawdata.__post_init__` (`interfaces.py` lines 20–40):
`df = bw / nf`, `dt = Sampling_time_uSec / 1e6`, `nt = 4·100·1e6 / nf`, then
the branch on the sign of `df`: if `df < 0` set `df := |df|` and
`fl := fh − bw + 0.5·df`; otherwise set `fl := fh` and
`fh := fl + bw − 0.5·df`. -/
def postInit (h : RawHeader) : Getrawdata :=
  let nf := h.Channels
  let bw := h.BandwidthMHz
  let df := bw / (nf : ℚ)
  let fh := h.FrequencyCh0
  let dt := h.SamplingTimeuSec / 1000000
  let nt := pytrunc (4 * 100 * 1000000 / (nf : ℚ))
  if df < 0 then
    { nf := nf, bw := bw, df := |df|, fh := fh,
      fl := fh - bw + (1 / 2) * |df|, dt := dt, nt := nt }
  else
    { nf := nf, bw := bw, df := df, fl := fh,
      fh := fh + bw - (1 / 2) * df, dt := dt, nt := nt }

/-! ### Raw-window computation, `interfaces.py`, `Getrawdata.chop` -/

/-- Embedding of the first window bound of `chop` (`interfaces.py` line 65):
`binbeg = int((t0 - maxdelay) / dt) - wbin` with
`maxdelay = dm2delay(fl, fh, dm)`. -/
def chopBinbeg (g : Getrawdata) (t0 dm : ℚ) (wbin : ℕ) : ℤ :=
  pytrunc ((t0 - dm2delay g.fl g.fh dm) / g.dt) - (wbin : ℤ)

/-- Embedding of the second window bound of `chop` (`interfaces.py` line 66):
`binend = int((t0 + maxdelay) / dt) + wbin`. -/
def chopBinend (g : Getrawdata) (t0 dm : ℚ) (wbin : ℕ) : ℤ :=
  pytrunc ((t0 + dm2delay g.fl g.fh dm) / g.dt) + (wbin : ℤ)

/-- The window-length widening of `chop` (`interfaces.py` lines 69–73) as a
function of the initial length `r = binend − binbeg`: if `wbin > 2` and
`r // (wbin // 2) < 256`, the length becomes `256 * wbin // 2`; otherwise if
`r < 256` it becomes `256`; otherwise it stays `r`.  Python `//` is floor
division, `Int.fdiv`. -/
def chopNreadAux (r : ℤ) (wbin : ℕ) : ℤ :=
  if 2 < wbin ∧ Int.fdiv r (wbin / 2 : ℕ) < 256 then Int.fdiv (256 * wbin) 2
  else if r < 256 then 256
  else r

/-- The realized raw-window length of `chop`: the widening rule applied to
`binend − binbeg` (`interfaces.py` lines 69–73). -/
def chopNread (g : Getrawdata) (t0 dm : ℚ) (wbin : ℕ) : ℤ :=
  chopNreadAux (chopBinend g t0 dm wbin - chopBinbeg g t0 dm wbin) wbin

/-! ### Planning arithmetic, `features.py`, `featurize` -/

/-- Embedding of `featurize`'s frequency downsampling factor
(`features.py` line 257): `downf = int(fil.nf / 256)`, i.e. ⌊nf/256⌋ with no
lower bound applied. -/
def downf (nf : ℕ) : ℕ := nf / 256

/-- Embedding of `featurize`'s time downsampling factor (`features.py`
line 258): `downt = 1 if wbin < 3 else int(wbin / 2)`. -/
def downt (wbin : ℕ) : ℕ := if wbin < 3 then 1 else wbin / 2

/-- Embedding of `featurize`'s downsampled channel count (`features.py`
line 263): `nfdown = int(fil.nf / downf)`; `none` when `downf = 0`, where the
Python expression raises `ZeroDivisionError`. -/
def nfdownOpt (nf : ℕ) : Option ℕ :=
  if downf nf = 0 then none else some (nf / downf nf)

/-- Embedding of `featurize`'s downsampled sample count (`features.py`
line 264): `ntdown = int(nt / downt)`. -/
def ntdown (nt wbin : ℕ) : ℕ := nt / downt wbin

/-- Embedding of the DM-range selection of `featurize` (`features.py`
lines 245–253): the base range is `[0, 2·dm]`; when `zoom` is set, the
half-width `delay2dm(fl, fh, fudging · wbin · dt)` replaces it with
`[dm − half, dm + half]` whenever that half-width is below `dm`. -/
def dmBounds (g : Getrawdata) (dm : ℚ) (wbin : ℕ) (zoom : Bool)
    (fudging : ℕ) : ℚ × ℚ :=
  if zoom then
    let half := delay2dm g.fl g.fh ((fudging : ℚ) * (wbin : ℚ) * g.dt)
    if half < dm then (dm - half, dm + half) else (0, 2 * dm)
  else (0, 2 * dm)

/-- Embedding of the DM step of `featurize` (`features.py` line 254):
`ddm = (dmhigh − dmlow) / (ndms − 1)` with `ndms = 256`. -/
def ddmOf (bounds : ℚ × ℚ) : ℚ := (bounds.2 - bounds.1) / 255

/-- The trial-DM grid used by `fastdmt` (`features.py` line 159): the `i`-th
trial DM is `dmlow + i · ddm`. -/
def dmGrid (bounds : ℚ × ℚ) (i : ℕ) : ℚ := bounds.1 + (i : ℚ) * ddmOf bounds

/-! ### Kernel index arithmetic, `features.py`, `dedisperse` and `fastdmt` -/

/-- The circular time-index wrap shared by both kernels (`features.py`
lines 108–110 and 164–166): `xti = ti + dbin; if xti >= nt: xti -= nt`. -/
def wrapidx (nt ti dbin : ℤ) : ℤ :=
  let xti := ti + dbin
  if nt ≤ xti then xti - nt else xti

/-- The output row targeted by the `dedisperse` kernel (`features.py`
line 112): `int(fi / downf)`; Python true division of nonnegative ints
followed by `int` is floor division. -/
def cellRow (fi df0 : ℕ) : ℕ := fi / df0

/-- The output column targeted by both kernels (`features.py` lines 112
and 168): `int(ti / downt)`. -/
def cellCol (ti dt0 : ℕ) : ℕ := ti / dt0

/-- Row count of the output array allocated for `dedisperse`
(`features.py` lines 263 and 267–269): `nfdown = int(nf / downf)` rows, for
a general factor `df0`. -/
def allocRows (nf df0 : ℕ) : ℕ := nf / df0

/-- Column count of the output arrays allocated for both kernels
(`features.py` lines 264 and 267–270): `ntdown = int(nt / downt)` columns,
for a general factor `dt0`. -/
def allocCols (nt dt0 : ℕ) : ℕ := nt / dt0

/-! ### Central crop and feature shapes, `features.py` lines 306–334 -/

/-- Length of the Python slice `a[s:e]` of a sequence of length `n`,
including the negative-index and clamping semantics of slicing. -/
def pyslicelen (n s e : ℤ) : ℕ :=
  let s1 := if s < 0 then max (n + s) 0 else min s n
  let e1 := if e < 0 then max (n + e) 0 else min e n
  (e1 - s1).toNat

/-- Column count after the central crop `[:, ntmid − 128 : ntmid + 128]`
of `featurize` (`features.py` lines 306, 309 and 323), applied to an array
of `ntd` columns, with `ntmid = int(ntdown / 2)`. -/
def cropWidth (ntd : ℕ) : ℕ :=
  pyslicelen (ntd : ℤ) ((ntd / 2 : ℕ) - 128 : ℤ) ((ntd / 2 : ℕ) + 128 : ℤ)

/-- Shapes of the two feature arrays produced by `featurize` for a window of
`nf` channels and `nt` samples: the dedispersed dynamic spectrum is
allocated `nfdown × ntdown` and cropped in time (`features.py` lines
267–269, 308–309), the DM transform is allocated `256 × ntdown` and cropped
in time (lines 270, 322–323).  `normalise`, from the absent module
`candies/utilities.py`, is modelled from the spec as shape-preserving
(spec §4.5).  The channel count is taken from `fil.nf` and the sample count
from `data.shape`, as in the source. -/
def featureShapes (nf nt wbin : ℕ) : (ℕ × ℕ) × (ℕ × ℕ) :=
  ((nf / downf nf, cropWidth (ntdown nt wbin)),
   (256, cropWidth (ntdown nt wbin)))

/-! ### CLI planning and persistence, `cli.py`, `make` -/

/-- Embedding of the `make` command's time downsampling factor (`cli.py`
line 71): `tfactor = 1 if np.log2(wbin) < 3 else np.log2(wbin) // 2`.  For
`wbin ≥ 1`, `log2 wbin < 3` iff `wbin < 8` (and `np.log2 0 = −∞ < 3`), and
`⌊log2 wbin / 2⌋ = ⌊⌊log2 wbin⌋ / 2⌋ = Nat.log2 wbin / 2`. -/
def tfactor (wbin : ℕ) : ℕ := if wbin < 8 then 1 else Nat.log2 wbin / 2

/-- The persisted HDF5 record written by the `make` command, restricted to
its two 2-D datasets and the dimension labels of the second (`cli.py` lines
147–161).  The source passes `data=dmt` to the dataset named `"dyn"` as well
as to the one named `"dmt"`. -/
structure H5Record (α : Type) where
  dyn : α
  dmt : α
  dmtDim0Label : String
  dmtDim1Label : String

/-- Embedding of the dataset-writing block of `make` (`cli.py` lines
147–161), as a function of the two cropped arrays that are in scope there:
`create_dataset("dyn", data=dmt, ...)`, `create_dataset("dmt", data=dmt,
...)`, then labels `"dm"` and `"time"` on the dims of the `"dmt"` dataset. -/
def makeSave {α : Type} (dyncrop dmtcrop : α) : H5Record α :=
  { dyn := dmtcrop, dmt := dmtcrop, dmtDim0Label := "dm", dmtDim1Label := "time" }

/-! ### Spec-side formulas kept for comparison -/

/-- Formula stated by the spec for the first window bound (spec §4.1):
`binbeg = floor((t0 − maxdelay)/dt) − wbin`. -/
def specBinbeg (g : Getrawdata) (t0 dm : ℚ) (wbin : ℕ) : ℤ :=
  ⌊(t0 - dm2delay g.fl g.fh dm) / g.dt⌋ - (wbin : ℤ)

/-- Formula stated by the spec for the second window bound (spec §4.1):
`binend = ceil((t0 + maxdelay)/dt) + wbin`. -/
def specBinend (g : Getrawdata) (t0 dm : ℚ) (wbin : ℕ) : ℤ :=
  ⌈(t0 + dm2delay g.fl g.fh dm) / g.dt⌉ + (wbin : ℤ)

/-! ### Concrete example configurations -/

/-- A small example configuration with simple band numbers, used to
instantiate theorems on concrete inputs. -/
def gSimple : Getrawdata :=
  { nf := 256, bw := 1, df := 1 / 256, fh := 2, fl := 1, dt := 1, nt := 100000 }

/-- The example configuration with 300 channels. -/
def g300 : Getrawdata :=
  { nf := 300, bw := 1, df := 1 / 300, fh := 2, fl := 1, dt := 1, nt := 100000 }

/-- A raw header with the negative-bandwidth convention:
`Bandwidth_MHz = −200` and 1000 channels. -/
def hdrNeg : RawHeader :=
  { Channels := 1000, BandwidthMHz := -200, FrequencyCh0 := 1500,
    SamplingTimeuSec := 64 }

/-! ### Shared helper lemmas -/

/-- The time downsampling factor of `featurize` is always positive. -/
lemma downt_pos (wbin : ℕ) : 1 ≤ downt wbin := by
  unfold downt
  split <;> omega

/-- Core inequality of the window widening: whatever the initial length, the
realized length is at least `256` times the time downsampling factor that
`featurize` will use for the same `wbin`. -/
lemma chopNreadAux_ge (r : ℤ) (wbin : ℕ) :
    256 * (downt wbin : ℤ) ≤ chopNreadAux r wbin := by
  unfold chopNreadAux downt
  by_cases hw : 2 < wbin
  · have hm1 : 1 ≤ wbin / 2 := by omega
    have hmz : (0 : ℤ) < ((wbin / 2 : ℕ) : ℤ) := by exact_mod_cast hm1
    by_cases hc : Int.fdiv r ((wbin / 2 : ℕ) : ℤ) < 256
    · rw [if_neg (by omega : ¬ wbin < 3), if_pos ⟨hw, hc⟩]
      rw [Int.fdiv_eq_ediv _ (by norm_num)]
      rw [show (256 : ℤ) * wbin = 2 * (128 * wbin) by ring,
        Int.mul_ediv_cancel_left _ (by norm_num)]
      have hhalf : 2 * (wbin / 2) ≤ wbin := by omega
      have hcast : 2 * ((wbin / 2 : ℕ) : ℤ) ≤ (wbin : ℤ) := by exact_mod_cast hhalf
      linarith
    · have hr : 256 * ((wbin / 2 : ℕ) : ℤ) ≤ r := by
        rw [Int.fdiv_eq_ediv _ (by positivity)] at hc
        exact (Int.le_ediv_iff_mul_le hmz).mp (not_lt.mp hc)
      have h256 : (256 : ℤ) ≤ r := le_trans (by nlinarith) hr
      rw [if_neg (by omega : ¬ wbin < 3), if_neg (fun hh => hc hh.2),
        if_neg (not_lt.mpr h256)]
      exact hr
  · rw [if_pos (by omega : wbin < 3), if_neg (fun hh => hw hh.1)]
    split
    · norm_num
    · rename_i h
      push_cast
      omega

/-- The raw-window length realized by `chop` is at least `256` times the
time downsampling factor. -/
lemma chopNread_ge (g : Getrawdata) (t0 dm : ℚ) (wbin : ℕ) :
    256 * (downt wbin : ℤ) ≤ chopNread g t0 dm wbin :=
  chopNreadAux_ge _ wbin

/-- After time downsampling, the window read by `chop` still has at least
`256` samples. -/
lemma ntdown_ge_256 (g : Getrawdata) (t0 dm : ℚ) (wbin : ℕ) :
    256 ≤ ntdown (chopNread g t0 dm wbin).toNat wbin := by
  have h := chopNread_ge g t0 dm wbin
  have hd := downt_pos wbin
  have hnn : (0 : ℤ) ≤ chopNread g t0 dm wbin :=
    le_trans (by positivity) h
  have hle : 256 * downt wbin ≤ (chopNread g t0 dm wbin).toNat := by
    rw [Int.le_toNat hnn]
    exact_mod_cast h
  exact (Nat.le_div_iff_mul_le (by omega)).mpr hle

/-- The central crop takes exactly `256` columns from any array with at
least `256` columns. -/
lemma cropWidth_eq_256 (ntd : ℕ) (h : 256 ≤ ntd) : cropWidth ntd = 256 := by
  simp only [cropWidth, pyslicelen, min_def, max_def]
  split_ifs <;> omega

/-! ### Claim theorems -/

/-- C2: for every candidate with `wbin ≥ 1` and `dm ≥ 0` and every header
with `dt > 0`, the raw-window length `nread` computed by `chop` — after the
widening rules for `wbin > 2` and for short windows — is at least 256
samples. -/
theorem chop_nread_ge_256 (g : Getrawdata) (t0 dm : ℚ) (wbin : ℕ)
    (hw : 1 ≤ wbin) (hdm : 0 ≤ dm) (hdt : 0 < g.dt) :
    256 ≤ chopNread g t0 dm wbin := by
  have h := chopNread_ge g t0 dm wbin
  have hd : (1 : ℤ) ≤ (downt wbin : ℤ) := by exact_mod_cast downt_pos wbin
  nlinarith

/-- Witness for `chop_nread_ge_256` at a concrete candidate and header. -/
theorem chop_nread_ge_256_witness :
    (1 ≤ 4 ∧ (0 : ℚ) ≤ 0 ∧ (0 : ℚ) < gSimple.dt) ∧
      256 ≤ chopNread gSimple 10 0 4 :=
  ⟨⟨by norm_num, le_refl 0, by norm_num [gSimple]⟩,
    chop_nread_ge_256 gSimple 10 0 4 (by norm_num) (le_refl 0)
      (by norm_num [gSimple])⟩

/-- C5: for every work item with time index `0 ≤ ti < nt` and delay bin
`0 ≤ dbin < nt`, the sample index actually read by the kernels — `ti + dbin`
followed by a single conditional subtraction of `nt` — equals
`(ti + dbin) mod nt` and lies in `[0, nt)`. -/
theorem wrapidx_eq_mod_in_bounds (nt ti dbin : ℤ)
    (h1 : 0 ≤ ti) (h2 : ti < nt) (h3 : 0 ≤ dbin) (h4 : dbin < nt) :
    wrapidx nt ti dbin = (ti + dbin) % nt ∧
      0 ≤ wrapidx nt ti dbin ∧ wrapidx nt ti dbin < nt := by
  unfold wrapidx
  by_cases h : nt ≤ ti + dbin
  · rw [if_pos h]
    have e1 : (ti + dbin) % nt = (ti + dbin - nt) % nt := by
      conv_lhs => rw [show ti + dbin = ti + dbin - nt + 1 * nt by ring]
      rw [Int.add_mul_emod_self]
    refine ⟨?_, by omega, by omega⟩
    rw [e1, Int.emod_eq_of_lt (by omega) (by omega)]
  · rw [if_neg h]
    exact ⟨(Int.emod_eq_of_lt (by omega) (by omega)).symm, by omega, by omega⟩

/-- Witness for `wrapidx_eq_mod_in_bounds` at `nt = 10`, `ti = 7`,
`dbin = 5`. -/
theorem wrapidx_eq_mod_witness :
    ((0 : ℤ) ≤ 7 ∧ (7 : ℤ) < 10 ∧ (0 : ℤ) ≤ 5 ∧ (5 : ℤ) < 10) ∧
      (wrapidx 10 7 5 = (7 + 5) % 10 ∧
        0 ≤ wrapidx 10 7 5 ∧ wrapidx 10 7 5 < 10) :=
  ⟨by decide,
    wrapidx_eq_mod_in_bounds 10 7 5 (by decide) (by decide) (by decide)
      (by decide)⟩

/-- C8 (code bug): on the negative-bandwidth header `hdrNeg` the constructed
`Getrawdata` has a positive channel width but `fl > fh`: the branch meant to
normalize the negative-bandwidth convention computes
`fl = fh − bw + 0.5·df` with `bw < 0`, which places `fl` an entire band
*above* `fh`, violating the `fh > fl` invariant the claim states. -/
theorem postInit_neg_bw_fl_gt_fh :
    0 < (postInit hdrNeg).df ∧ (postInit hdrNeg).fh < (postInit hdrNeg).fl := by
  norm_num [postInit, hdrNeg, abs_of_pos]

/-- C9 (code bug): the persisted record of the `make` command stores the
DM-transform array under the dataset name `"dyn"` as well as under `"dmt"`
(`cli.py` line 149 passes `data=dmt` to the `"dyn"` dataset), so whenever
the two cropped arrays differ, the `"dyn"` dataset does not hold the
dedispersed spectrum; the dimension labels of the `"dmt"` dataset are as
claimed. -/
theorem makeSave_dyn_is_dmt :
    (makeSave [[(1 : ℚ)]] [[2]]).dyn = [[2]] ∧
      (makeSave [[(1 : ℚ)]] [[2]]).dyn ≠ [[1]] ∧
      (makeSave [[(1 : ℚ)]] [[2]]).dmtDim0Label = "dm" ∧
      (makeSave [[(1 : ℚ)]] [[2]]).dmtDim1Label = "time" :=
  ⟨rfl, by decide, rfl, rfl⟩

/-- C3 counterexample: at `nf = 100` the frequency downsampling factor
computed by `featurize` is `0`, not `max 1 ⌊nf/256⌋ = 1`, and the
downsampled channel count is undefined (`ZeroDivisionError` in Python,
`none` in the embedding). -/
theorem downf_zero_at_nf100 :
    downf 100 = 0 ∧ downf 100 ≠ max 1 (100 / 256) ∧ nfdownOpt 100 = none := by
  decide

/-- C3 amended: for every header with `nf ≥ 256`, the factor
`downf = ⌊nf/256⌋` is at least 1 and the downsampled channel count
`nfdown = ⌊nf/downf⌋` is well defined; the code applies no minimum, so this
fails for `nf < 256`. -/
theorem downf_pos_of_nf_ge_256 (nf : ℕ) (h : 256 ≤ nf) :
    1 ≤ downf nf ∧ nfdownOpt nf = some (nf / downf nf) := by
  have h1 : 1 ≤ downf nf := (Nat.le_div_iff_mul_le (by norm_num)).mpr (by omega)
  refine ⟨h1, ?_⟩
  unfold nfdownOpt
  rw [if_neg (by omega)]

/-- Witness for `downf_pos_of_nf_ge_256` at `nf = 4096`. -/
theorem downf_pos_witness :
    256 ≤ 4096 ∧ (1 ≤ downf 4096 ∧ nfdownOpt 4096 = some (4096 / downf 4096)) :=
  ⟨by norm_num, downf_pos_of_nf_ge_256 4096 (by norm_num)⟩

/-- C6 counterexample: at `wbin = 4` the CLI `make` path computes a time
factor of `1` (since `log2 4 = 2 < 3`), while the claimed formula — and
`featurize` — give `⌊4/2⌋ = 2`. -/
theorem tfactor_ne_spec_at_wbin4 :
    tfactor 4 = 1 ∧ downt 4 = 2 ∧ tfactor 4 ≠ (if 4 < 3 then 1 else 4 / 2) := by
  decide

/-- Auxiliary: `L + 2 ≤ 2 ^ L` for `L ≥ 2`. -/
lemma add_two_le_two_pow (L : ℕ) (h : 2 ≤ L) : L + 2 ≤ 2 ^ L := by
  induction L with
  | zero => omega
  | succ n ih =>
    by_cases hn : 2 ≤ n
    · have hle := ih hn
      have h2 : 0 < 2 ^ n := pow_pos (by norm_num) n
      rw [pow_succ]
      omega
    · have hn1 : n ≤ 1 := by omega
      interval_cases n
      · omega
      · decide

/-- Auxiliary: for `w ≥ 8`, `⌊log₂ w⌋ / 2 < ⌊w/2⌋`. -/
lemma log2_half_lt (w : ℕ) (h : 8 ≤ w) : Nat.log2 w / 2 < w / 2 := by
  have hL : 3 ≤ Nat.log2 w :=
    (Nat.le_log2 (by omega)).mpr (le_trans (by norm_num) h)
  have hpow : 2 ^ Nat.log2 w ≤ w := Nat.log2_self_le (by omega)
  have hlin : Nat.log2 w + 2 ≤ w :=
    le_trans (add_two_le_two_pow _ (by omega)) hpow
  omega

/-- C6 amended: for `wbin ≥ 4` the two code paths disagree — `featurize`
uses `downt = ⌊wbin/2⌋` (the claimed formula), while the CLI `make` path
uses `1` for `wbin < 8` and `⌊log₂ wbin / 2⌋` for `wbin ≥ 8`, which is
strictly smaller than `featurize`'s factor. -/
theorem downt_vs_tfactor (w : ℕ) (h : 4 ≤ w) :
    downt w = w / 2 ∧ tfactor w = (if w < 8 then 1 else Nat.log2 w / 2) ∧
      tfactor w < downt w := by
  have hd : downt w = w / 2 := by
    unfold downt
    rw [if_neg (by omega)]
  refine ⟨hd, rfl, ?_⟩
  unfold tfactor
  by_cases h8 : w < 8
  · rw [if_pos h8, hd]
    omega
  · rw [if_neg h8, hd]
    exact log2_half_lt w (by omega)

/-- Witness for `downt_vs_tfactor` at `wbin = 5`. -/
theorem downt_vs_tfactor_witness :
    4 ≤ 5 ∧ (downt 5 = 5 / 2 ∧
      tfactor 5 = (if 5 < 8 then 1 else Nat.log2 5 / 2) ∧
      tfactor 5 < downt 5) :=
  ⟨by norm_num, downt_vs_tfactor 5 (by norm_num)⟩

/-- C10 counterexample: with `nf = 5` channels, factor `downf = 2` and the
in-range channel `fi = 4 < nf`, the `dedisperse` kernel accumulates into
output row `⌊4/2⌋ = 2`, which is not below the allocated row count
`⌊5/2⌋ = 2`: the write is out of bounds when `downf` does not divide
`nf`. -/
theorem kernel_cell_out_of_bounds :
    4 < 5 ∧ 1 ≤ 2 ∧ cellRow 4 2 = 2 ∧ allocRows 5 2 = 2 ∧
      ¬ cellRow 4 2 < allocRows 5 2 := by
  decide

/-- C10 amended: for every in-range work item, the output cell targeted by
either kernel lies within the allocated output array *provided* the
downsampling factors divide the corresponding dimensions; the `fastdmt` row
index is its DM-grid index, bounded by the 256 allocated rows by the launch
configuration. -/
theorem kernel_cells_in_bounds_of_dvd (nf nt df0 dt0 fi ti : ℕ)
    (hd1 : 1 ≤ df0) (hd2 : 1 ≤ dt0) (hdf : df0 ∣ nf) (hdt : dt0 ∣ nt)
    (hfi : fi < nf) (hti : ti < nt) :
    cellRow fi df0 < allocRows nf df0 ∧ cellCol ti dt0 < allocCols nt dt0 :=
  ⟨Nat.div_lt_div_of_lt_of_dvd hdf hfi, Nat.div_lt_div_of_lt_of_dvd hdt hti⟩

/-- Witness for `kernel_cells_in_bounds_of_dvd` with `nf = nt = 512`,
factors `2`, at the last in-range work item. -/
theorem kernel_cells_in_bounds_witness :
    (1 ≤ 2 ∧ 1 ≤ 2 ∧ (2 : ℕ) ∣ 512 ∧ (2 : ℕ) ∣ 512 ∧ 511 < 512 ∧ 511 < 512) ∧
      (cellRow 511 2 < allocRows 512 2 ∧ cellCol 511 2 < allocCols 512 2) :=
  ⟨by decide,
    kernel_cells_in_bounds_of_dvd 512 512 2 2 511 511 (by decide) (by decide)
      (by decide) (by decide) (by decide) (by decide)⟩

/-- C7 counterexample: with the band of `gSimple`, `dt = 1`, `dm = 0` (so
the maximum delay is exactly `0`), `t0 = 21/2` and `wbin = 1`, the code's
`binend = int(10.5) + 1 = 11` differs from the spec's
`ceil(10.5) + 1 = 12`: `chop` truncates both bounds, it never takes a
ceiling. -/
theorem chop_binend_ne_ceil :
    chopBinend gSimple (21 / 2) 0 1 = 11 ∧ specBinend gSimple (21 / 2) 0 1 = 12 := by
  constructor
  · norm_num [chopBinend, pytrunc, dm2delay, gSimple]
  · have hq : ((21 : ℚ) / 2 + dm2delay gSimple.fl gSimple.fh 0) / gSimple.dt
        = 21 / 2 := by
      norm_num [dm2delay, gSimple]
    unfold specBinend
    rw [hq]
    have hc : ⌈(21 : ℚ) / 2⌉ = (11 : ℤ) := by
      rw [Int.ceil_eq_iff]
      constructor <;> norm_num
    rw [hc]
    norm_num

/-- C7 amended: whenever the two quotients are nonnegative (the usual case,
since `t0 ≥ maxdelay ≥ 0` inside a scan), `chop` computes
`binbeg = ⌊(t0 − maxdelay)/dt⌋ − wbin` — the spec's formula — and
`binend = ⌊(t0 + maxdelay)/dt⌋ + wbin`: truncation toward zero in place of
the spec's ceiling. -/
theorem chop_bounds_trunc (g : Getrawdata) (t0 dm : ℚ) (wbin : ℕ)
    (h1 : 0 ≤ (t0 - dm2delay g.fl g.fh dm) / g.dt)
    (h2 : 0 ≤ (t0 + dm2delay g.fl g.fh dm) / g.dt) :
    chopBinbeg g t0 dm wbin = specBinbeg g t0 dm wbin ∧
      chopBinend g t0 dm wbin
        = ⌊(t0 + dm2delay g.fl g.fh dm) / g.dt⌋ + (wbin : ℤ) := by
  unfold chopBinbeg chopBinend specBinbeg pytrunc
  rw [if_pos h1, if_pos h2]
  exact ⟨rfl, rfl⟩

/-- Witness for `chop_bounds_trunc` at `gSimple`, `t0 = 21/2`, `dm = 0`,
`wbin = 1`. -/
theorem chop_bounds_trunc_witness :
    (0 ≤ ((21 : ℚ) / 2 - dm2delay gSimple.fl gSimple.fh 0) / gSimple.dt ∧
      0 ≤ ((21 : ℚ) / 2 + dm2delay gSimple.fl gSimple.fh 0) / gSimple.dt) ∧
      (chopBinbeg gSimple (21 / 2) 0 1 = specBinbeg gSimple (21 / 2) 0 1 ∧
        chopBinend gSimple (21 / 2) 0 1
          = ⌊((21 : ℚ) / 2 + dm2delay gSimple.fl gSimple.fh 0) / gSimple.dt⌋
              + ((1 : ℕ) : ℤ)) :=
  ⟨⟨by norm_num [dm2delay, gSimple], by norm_num [dm2delay, gSimple]⟩,
    chop_bounds_trunc gSimple (21 / 2) 0 1
      (by norm_num [dm2delay, gSimple]) (by norm_num [dm2delay, gSimple])⟩

/-- Helper for C4: the DM bounds chosen by `featurize` always bracket the
candidate's `dm` strictly spread apart, provided `dm > 0` and the band and
sampling parameters are physical. -/
lemma dmBounds_spread (g : Getrawdata) (dm : ℚ) (wbin : ℕ) (zoom : Bool)
    (fudging : ℕ) (hdm : 0 < dm) (hdt : 0 < g.dt) (hfl : 0 < g.fl)
    (hflh : g.fl < g.fh) (hw : 1 ≤ wbin) (hfud : 1 ≤ fudging) :
    (dmBounds g dm wbin zoom fudging).1 ≤ dm ∧
      dm ≤ (dmBounds g dm wbin zoom fudging).2 ∧
      (dmBounds g dm wbin zoom fudging).1 < (dmBounds g dm wbin zoom fudging).2 := by
  have hfh : 0 < g.fh := lt_trans hfl hflh
  have hband : 0 < 1 / g.fl ^ 2 - 1 / g.fh ^ 2 := by
    have h2 : g.fl ^ 2 < g.fh ^ 2 := by nlinarith
    have h3 := one_div_lt_one_div_of_lt (by positivity) h2
    linarith
  have hkdm : (0 : ℚ) < kdm := by norm_num [kdm]
  have hhalf : 0 < delay2dm g.fl g.fh ((fudging : ℚ) * (wbin : ℚ) * g.dt) := by
    unfold delay2dm
    have hf1 : (1 : ℚ) ≤ (fudging : ℚ) := by exact_mod_cast hfud
    have hw1 : (1 : ℚ) ≤ (wbin : ℚ) := by exact_mod_cast hw
    have hf0 : (0 : ℚ) < (fudging : ℚ) := by linarith
    have hw0 : (0 : ℚ) < (wbin : ℚ) := by linarith
    have hnum : 0 < (fudging : ℚ) * (wbin : ℚ) * g.dt :=
      mul_pos (mul_pos hf0 hw0) hdt
    exact div_pos hnum (by nlinarith)
  unfold dmBounds
  cases zoom with
  | false =>
    simp only [Bool.false_eq_true, if_false]
    exact ⟨by linarith, by linarith, by linarith⟩
  | true =>
    simp only [if_true]
    split
    · dsimp only
      exact ⟨by linarith, by linarith, by linarith⟩
    · dsimp only
      exact ⟨by linarith, by linarith, by linarith⟩

/-- C4 counterexample: for a candidate with `dm = 0` (with zoom on, at the
band of `gSimple`), the DM range degenerates to `[0, 0]`, the step `ddm` is
`0`, and the grid is constant: it is not strictly increasing. -/
theorem dm_grid_degenerate_at_dm_zero :
    ¬ dmGrid (dmBounds gSimple 0 1 true 512) 0 <
        dmGrid (dmBounds gSimple 0 1 true 512) 1 := by
  have hb : dmBounds gSimple 0 1 true 512 = (0, 0) := by
    norm_num [dmBounds, delay2dm, kdm, gSimple]
  rw [hb]
  norm_num [dmGrid, ddmOf]

/-- C4 amended: for every candidate with `dm > 0` (and a physical header:
`dt > 0`, `0 < fl < fh`, `wbin ≥ 1`, `fudging ≥ 1`), the DM grid
`dmlow + i·ddm` is strictly increasing, its point `255` equals `dmhigh`, and
the candidate's `dm` lies within `[dmlow, dmhigh]` — in the zoom-narrowed
range as well as in the base range.  For `dm = 0` the grid is constant. -/
theorem dm_grid_strict_mono_of_dm_pos (g : Getrawdata) (dm : ℚ) (wbin : ℕ)
    (zoom : Bool) (fudging : ℕ)
    (hdm : 0 < dm) (hdt : 0 < g.dt) (hfl : 0 < g.fl) (hflh : g.fl < g.fh)
    (hw : 1 ≤ wbin) (hfud : 1 ≤ fudging) :
    (∀ i j : ℕ, i < j →
        dmGrid (dmBounds g dm wbin zoom fudging) i <
          dmGrid (dmBounds g dm wbin zoom fudging) j) ∧
      dmGrid (dmBounds g dm wbin zoom fudging) 255 =
        (dmBounds g dm wbin zoom fudging).2 ∧
      (dmBounds g dm wbin zoom fudging).1 ≤ dm ∧
      dm ≤ (dmBounds g dm wbin zoom fudging).2 := by
  obtain ⟨hl, hr, hlt⟩ :=
    dmBounds_spread g dm wbin zoom fudging hdm hdt hfl hflh hw hfud
  have hddm : 0 < ddmOf (dmBounds g dm wbin zoom fudging) := by
    unfold ddmOf
    exact div_pos (by linarith) (by norm_num)
  refine ⟨?_, ?_, hl, hr⟩
  · intro i j hij
    unfold dmGrid
    have hc : (i : ℚ) < (j : ℚ) := by exact_mod_cast hij
    have := mul_lt_mul_of_pos_right hc hddm
    linarith
  · unfold dmGrid ddmOf
    push_cast
    field_simp

/-- Witness for `dm_grid_strict_mono_of_dm_pos` at `gSimple`, `dm = 5`,
`wbin = 1`, zoom on, `fudging = 512`. -/
theorem dm_grid_witness :
    ((0 : ℚ) < 5 ∧ (0 : ℚ) < gSimple.dt ∧ (0 : ℚ) < gSimple.fl ∧
      gSimple.fl < gSimple.fh ∧ 1 ≤ 1 ∧ 1 ≤ 512) ∧
      ((∀ i j : ℕ, i < j →
          dmGrid (dmBounds gSimple 5 1 true 512) i <
            dmGrid (dmBounds gSimple 5 1 true 512) j) ∧
        dmGrid (dmBounds gSimple 5 1 true 512) 255 =
          (dmBounds gSimple 5 1 true 512).2 ∧
        (dmBounds gSimple 5 1 true 512).1 ≤ 5 ∧
        (5 : ℚ) ≤ (dmBounds gSimple 5 1 true 512).2) :=
  ⟨⟨by norm_num, by norm_num [gSimple], by norm_num [gSimple],
      by norm_num [gSimple], le_refl 1, by norm_num⟩,
    dm_grid_strict_mono_of_dm_pos gSimple 5 1 true 512 (by norm_num)
      (by norm_num [gSimple]) (by norm_num [gSimple]) (by norm_num [gSimple])
      (le_refl 1) (by norm_num)⟩

/-- C1 counterexample: for a header with `nf = 300` channels (band of
`g300`) and the candidate `t0 = 10`, `dm = 0`, `wbin = 1`, `featurize`
downsamples by `downf = ⌊300/256⌋ = 1`, so the cropped dedispersed spectrum
has `300` rows, not `256`: the claimed 256×256 shape fails for a channel
count that is not a multiple of 256 (the time axis does come out at 256). -/
theorem featurize_shape_not_256_at_nf300 :
    (featureShapes 300 (chopNread g300 10 0 1).toNat 1).1 ≠ (256, 256) := by
  have hbeg : chopBinbeg g300 10 0 1 = 9 := by
    norm_num [chopBinbeg, pytrunc, dm2delay, g300]
  have hend : chopBinend g300 10 0 1 = 11 := by
    norm_num [chopBinend, pytrunc, dm2delay, g300]
  have hr : chopNread g300 10 0 1 = 256 := by
    unfold chopNread
    rw [hbeg, hend]
    decide
  rw [hr]
  decide

/-- C1 amended: whenever the channel count is a positive multiple of 256
(every power-of-two count from 256 up, e.g. the usual 4096), both feature
arrays produced by `featurize` — the dedispersed dynamic spectrum and the DM
transform, after downsampling and central cropping of the window delivered
by `chop` — have shape exactly 256×256, for every candidate (`t0`, `dm`,
any `wbin`). -/
theorem featurize_shapes_256_of_nf_multiple (g : Getrawdata) (t0 dm : ℚ)
    (wbin k : ℕ) (hk : 1 ≤ k) :
    featureShapes (256 * k) (chopNread g t0 dm wbin).toNat wbin =
      ((256, 256), (256, 256)) := by
  have hcols : cropWidth (ntdown (chopNread g t0 dm wbin).toNat wbin) = 256 :=
    cropWidth_eq_256 _ (ntdown_ge_256 g t0 dm wbin)
  have hdf : downf (256 * k) = k := by
    unfold downf
    exact Nat.mul_div_cancel_left k (by norm_num)
  have hrows : 256 * k / downf (256 * k) = 256 := by
    rw [hdf]
    exact Nat.mul_div_cancel _ (by omega)
  unfold featureShapes
  rw [hcols, hrows]

/-- Witness for `featurize_shapes_256_of_nf_multiple` at `nf = 4096`
(`k = 16`) and the candidate `t0 = 10`, `dm = 0`, `wbin = 4` on the band of
`gSimple`. -/
theorem featurize_shapes_256_witness :
    1 ≤ 16 ∧
      featureShapes (256 * 16) (chopNread gSimple 10 0 4).toNat 4 =
        ((256, 256), (256, 256)) :=
  ⟨by norm_num,
    featurize_shapes_256_of_nf_multiple gSimple 10 0 4 16 (by norm_num)⟩

end Candies
